import Mathlib

/-!
Verification of the MemoryFlow spaced-repetition scheduling core.

The development shallowly embeds the scheduling engine of the repository:
* `src/fsrs.ts` — the FSRS retention model (stability / difficulty transitions,
  interval derivation, retrievability);
* `src/utils/scheduler.ts` — the forward projection engine (`generateReviewSchedule`);
* `src/hooks/useTree.ts` — the ledger-mutating operations (`reviewComplete`,
  `addRetroactiveLog`, `deleteLog`, `addNode`);
* `src/App.tsx` — the due-set selector (`reviewQueue`).

JavaScript floating-point numbers are idealised as exact reals (`ℝ`); timestamps
and day counts are integer milliseconds / days (`ℤ`), matching the sources where
they are produced (`Date.now()`, `Math.round`).  `parseFloat(x.toFixed(4))` is
modelled as rounding to the nearest multiple of `1/10000` with ties away from
the smaller value, which is what `toFixed` specifies; `Math.round x` is
`⌊x + 1/2⌋`, which is Mathlib's `round`.
-/

namespace MemoryFlow

noncomputable section

/-! ### Weights and constants (src/fsrs.ts, lines 3-12)

The source stores the 19 standard FSRS v4.5 weights in an array `w`; entry
`w[i]` is named `wi` here. -/

def w0 : ℝ := 0.40255
def w1 : ℝ := 1.18385
def w2 : ℝ := 3.173
def w3 : ℝ := 15.69105
def w4 : ℝ := 7.19605
def w5 : ℝ := 0.5345
def w6 : ℝ := 1.4604
def w7 : ℝ := 0.0046
def w8 : ℝ := 1.54575
def w9 : ℝ := 0.1192
def w10 : ℝ := 1.01925
def w11 : ℝ := 1.9395
def w12 : ℝ := 0.41
def w13 : ℝ := 0.29605
def w14 : ℝ := 2.2698
def w15 : ℝ := 0.2315
def w16 : ℝ := 2.9898
def w17 : ℝ := 0.51655
def w18 : ℝ := 0.6621

def DECAY : ℝ := -0.5
def FACTOR : ℝ := 0.9

/-- One day in milliseconds, `24 * 60 * 60 * 1000` in the sources. -/
def dayMs : ℤ := 24 * 60 * 60 * 1000

/-! ### Data model (src/types.ts) -/

/-- `type Rating = 1 | 2 | 3 | 4` (Again, Hard, Good, Easy). -/
inductive Rating
  | again
  | hard
  | good
  | easy
deriving DecidableEq

/-- The numeric value of a rating as used in the arithmetic of `src/fsrs.ts`. -/
def Rating.val : Rating → ℤ
  | .again => 1
  | .hard => 2
  | .good => 3
  | .easy => 4

/-- `type NodeState = 'new' | 'learning' | 'review' | 'suspended'`. -/
inductive NodeState
  | new
  | learning
  | review
  | suspended
deriving DecidableEq

/-- `interface FSRSData` of src/types.ts. -/
structure FSRSData where
  state : NodeState
  s : ℝ
  d : ℝ
  due : ℤ
  lastReview : ℤ

/-- `interface SchedulingInfo` of src/types.ts (also the shape of
`FSRSReviewLog.stateAfter`). -/
structure SchedulingInfo where
  s : ℝ
  d : ℝ
  interval : ℤ

/-! ### Retention model (src/fsrs.ts) -/

/-- `calculateInterval` (src/fsrs.ts lines 18-21):
`if (s === 0) return 0; return Math.min(36500, Math.max(1, Math.round(s * 9 * (1 / FACTOR - 1))))`. -/
def calculateInterval (s : ℝ) : ℤ :=
  if s = 0 then 0 else min 36500 (max 1 (round (s * 9 * (1 / FACTOR - 1))))

/-- `nextDifficulty` (src/fsrs.ts lines 29-41).  The executed body is the first
`return` statement, which applies a mean-reversion transform toward 1 before
clamping; the statements after it (the plain update `d - w[6]*(rating-3)`
announced by the function's doc comment) are unreachable dead code and are
therefore not part of the embedding. -/
def nextDifficulty (d : ℝ) (rating : Rating) : ℝ :=
  let nextD := d - w6 * ((rating.val : ℝ) - 3)
  min 10 (max 1 ((1 - w7) * nextD + w7 * 1))

/-- `initialStability` (src/fsrs.ts lines 47-49): `S0 = w[rating - 1]`. -/
def initialStability : Rating → ℝ
  | .again => w0
  | .hard => w1
  | .good => w2
  | .easy => w3

/-- `initialDifficulty` (src/fsrs.ts lines 56-59):
`D0 = w[4] - (rating - 3) * w[5]`, clamped to `[1, 10]`. -/
def initialDifficulty (rating : Rating) : ℝ :=
  min 10 (max 1 (w4 - ((rating.val : ℝ) - 3) * w5))

/-- `nextStability` (src/fsrs.ts lines 65-82). -/
def nextStability (s d r : ℝ) (rating : Rating) : ℝ :=
  if rating = .again then
    w11 * d ^ (-w12) * (s + 1) ^ w13 * Real.exp (w14 * (1 - r))
  else
    let hardPenalty : ℝ := if rating = .hard then w15 else 1
    let easyBonus : ℝ := if rating = .easy then w16 else 1
    s * (1 + Real.exp w8 * (11 - d) * s ^ (-w9) * (Real.exp (w10 * (1 - r)) - 1) *
      hardPenalty * easyBonus)

/-- `currentRetrievability` (src/fsrs.ts lines 88-91):
`R = (1 + FACTOR * t / S) ^ DECAY`, `0` when `S = 0`. -/
def currentRetrievability (s elapsedDays : ℝ) : ℝ :=
  if s = 0 then 0 else (1 + FACTOR * elapsedDays / s) ^ DECAY

/-- `parseFloat(x.toFixed(4))`: round to four decimal places. -/
def roundTo4 (x : ℝ) : ℝ := (round (x * 10000) : ℤ) / 10000

/-- `computeNextSchedule` (src/fsrs.ts lines 93-121). -/
def computeNextSchedule (current : FSRSData) (rating : Rating) (now : ℤ) : SchedulingInfo :=
  let elapsedDays : ℝ := max 0 (((now - current.lastReview : ℤ) : ℝ) / (1000 * 60 * 60 * 24))
  let sd : ℝ × ℝ :=
    if current.s = 0 then
      (initialStability rating, initialDifficulty rating)
    else
      (nextStability current.s current.d (currentRetrievability current.s elapsedDays) rating,
        nextDifficulty current.d rating)
  ⟨roundTo4 sd.1, roundTo4 sd.2, calculateInterval sd.1⟩

/-! ### Review log ledger and tree nodes (src/types.ts) -/

/-- `interface FSRSReviewLog` of src/types.ts. -/
structure FSRSReviewLog where
  id : String
  rating : Rating
  reviewDate : ℤ
  stateAfter : Option SchedulingInfo

/-- `interface Node` of src/types.ts. -/
structure Node where
  id : String
  parentId : Option String
  title : String
  children : List String
  isExpanded : Bool
  fsrs : FSRSData
  logs : List FSRSReviewLog

/-- `type NodeMap = Record<string, Node>`: JavaScript objects preserve key
insertion order, so the map is modelled as an ordered association list. -/
abbrev NodeMap := List (String × Node)

/-! ### State reconstruction (replay) -/

/-- Ascending order on review timestamps, the replay ordering. -/
def logLe (a b : FSRSReviewLog) : Prop := a.reviewDate ≤ b.reviewDate

instance : DecidableRel logLe := fun a b => inferInstanceAs (Decidable (a.reviewDate ≤ b.reviewDate))

instance : IsTotal FSRSReviewLog logLe := ⟨fun a b => Int.le_total a.reviewDate b.reviewDate⟩

instance : IsTrans FSRSReviewLog logLe := ⟨fun _ _ _ h h' => le_trans h h'⟩

/-- The `FSRSData` value that `reviewComplete` (src/hooks/useTree.ts lines
206-237) writes for the reviewed node when the caller supplies the outputs of
`computeNextSchedule` — which is what `ReviewDeck.tsx` does:
`state: 'review', s, d, lastReview: now, due: now + interval·day`. -/
def applyReviewNow (st : FSRSData) (rating : Rating) (now : ℤ) : FSRSData :=
  let res := computeNextSchedule st rating now
  ⟨.review, res.s, res.d, now + res.interval * dayMs, now⟩

/-- One replay step: fold the retention model over one ledger entry. -/
def replayStep (st : FSRSData) (e : FSRSReviewLog) : FSRSData :=
  applyReviewNow st e.rating e.reviewDate

/-- The zero state replay starts from (S=0, D=0, status new, lastReview 0,
due = fallback). -/
def replayZero (fallbackDue : ℤ) : FSRSData :=
  ⟨.new, 0, 0, fallbackDue, 0⟩

/-- Modelled from the spec: `recalculateFSRS` is imported by
`src/hooks/useTree.ts` from `../fsrs` but its definition is not among the
provided sources.  Following spec §4.3 (replay): sort the ledger ascending by
`reviewTimestamp` with a stable tie-break on insertion order (insertion sort by
`logLe` is exactly that stable sort), then fold the retention model transition
from the zero state; each step sets `lifecycleStatus = review`,
`lastReviewTimestamp = entry.timestamp` and
`due = entry.timestamp + interval·day`. -/
def recalculateFSRS (logs : List FSRSReviewLog) (fallbackDue : ℤ) : FSRSData :=
  (List.insertionSort logLe logs).foldl replayStep (replayZero fallbackDue)

/-! ### Tree mutations (src/hooks/useTree.ts) -/

/-- Overwrite the value stored at an existing key, keeping key order
(`next[id] = node` for a present key). -/
def setNode (m : NodeMap) (id : String) (n : Node) : NodeMap :=
  m.map fun p => if p.1 = id then (p.1, n) else p

/-- `reviewComplete` (src/hooks/useTree.ts lines 206-237).  `now` is
`Date.now()` and `logId` the generated UUID, both made explicit inputs. -/
def reviewComplete (m : NodeMap) (id : String) (s d : ℝ) (interval : ℤ)
    (rating : Rating) (now : ℤ) (logId : String) : NodeMap :=
  match m.lookup id with
  | none => m
  | some node =>
    let newLog : FSRSReviewLog := ⟨logId, rating, now, some ⟨s, d, interval⟩⟩
    setNode m id { node with
      logs := node.logs ++ [newLog]
      fsrs := ⟨.review, s, d, now + interval * dayMs, now⟩ }

/-- `addRetroactiveLog` (src/hooks/useTree.ts lines 240-263). -/
def addRetroactiveLog (m : NodeMap) (id : String) (rating : Rating) (date : ℤ)
    (logId : String) : NodeMap :=
  match m.lookup id with
  | none => m
  | some node =>
    let newLog : FSRSReviewLog := ⟨logId, rating, date, none⟩
    let updatedLogs := node.logs ++ [newLog]
    setNode m id { node with
      logs := updatedLogs
      fsrs := recalculateFSRS updatedLogs node.fsrs.due }

/-- `deleteLog` (src/hooks/useTree.ts lines 265-289); `now` is `Date.now()`. -/
def deleteLog (m : NodeMap) (nodeId logId : String) (now : ℤ) : NodeMap :=
  match m.lookup nodeId with
  | none => m
  | some node =>
    let updatedLogs := node.logs.filter fun l => decide (l.id ≠ logId)
    let recalculated := recalculateFSRS updatedLogs now
    let finalState :=
      if updatedLogs.isEmpty then
        { recalculated with state := .new, s := 0, d := 0, due := now }
      else recalculated
    setNode m nodeId { node with logs := updatedLogs, fsrs := finalState }

/-- `mode: 'store' | 'plan'` of `addNode`. -/
inductive AddMode
  | store
  | plan
deriving DecidableEq

/-- `addNode` (src/hooks/useTree.ts lines 87-126).  `newId` is the generated
UUID, `now` is `Date.now()` and `isLateNight` the clock-derived flag
`dateObj.getHours() < 3`, all made explicit inputs.  The function returns the
updated map together with `newId`, which the source returns unconditionally. -/
def addNode (m : NodeMap) (parentId title : String) (mode : AddMode)
    (newId : String) (now : ℤ) (isLateNight : Bool) : NodeMap × String :=
  let initialDue := if isLateNight then now else now + dayMs
  let newNode : Node :=
    ⟨newId, some parentId, title, [], false,
      ⟨if mode = .plan then .new else .suspended, 0, 0,
        if mode = .plan then initialDue else 0, 0⟩, []⟩
  match m.lookup parentId with
  | none => (m, newId)
  | some parent =>
    (setNode m parentId { parent with
        children := parent.children ++ [newId], isExpanded := true } ++ [(newId, newNode)],
      newId)

/-! ### Due-set selector (src/App.tsx lines 52-59) -/

/-- Ascending order on due timestamps, the review-queue sort order.  JavaScript
`Array.prototype.sort` is stable, so the queue is the stable sort of the
filtered list by this relation. -/
def nodeLe (a b : Node) : Prop := a.fsrs.due ≤ b.fsrs.due

instance : DecidableRel nodeLe := fun a b => inferInstanceAs (Decidable (a.fsrs.due ≤ b.fsrs.due))

instance : IsTotal Node nodeLe := ⟨fun a b => Int.le_total a.fsrs.due b.fsrs.due⟩

instance : IsTrans Node nodeLe := ⟨fun _ _ _ h h' => le_trans h h'⟩

/-- The filter of `reviewQueue`:
`node.parentId !== null && node.fsrs.state !== 'suspended' && node.fsrs.due <= now`. -/
def duePred (now : ℤ) (n : Node) : Prop :=
  n.parentId ≠ none ∧ n.fsrs.state ≠ NodeState.suspended ∧ n.fsrs.due ≤ now

instance (now : ℤ) : DecidablePred (duePred now) := fun n => by
  unfold duePred
  infer_instance

/-- `reviewQueue` (src/App.tsx lines 52-59): filter `Object.values(nodes)`
(insertion order) by `duePred`, then stable-sort ascending by due timestamp. -/
def reviewQueue (nodes : NodeMap) (now : ℤ) : List Node :=
  List.insertionSort nodeLe ((nodes.map Prod.snd).filter fun n => decide (duePred now n))

/-! ### Forward projection (src/utils/scheduler.ts) -/

/-- `type ReviewType = 'confirmed' | 'projected'`. -/
inductive ReviewType
  | confirmed
  | projected
deriving DecidableEq

/-- `interface CalendarEvent` of src/types.ts. -/
structure CalendarEvent where
  nodeId : String
  title : String
  date : ℤ
  type : ReviewType
  predictedInterval : Option ℤ
deriving DecidableEq

/-- The skip test of the projection loop:
`node.id === 'root' || node.fsrs.state === 'suspended' || !node.parentId`.
A JavaScript string is falsy when it is `null` or empty. -/
def skipNode (n : Node) : Bool :=
  decide (n.id = "root") || decide (n.fsrs.state = NodeState.suspended) ||
    (match n.parentId with
      | none => true
      | some p => decide (p = ""))

/-- The `while (safetyCounter < 365)` simulation chain of
`generateReviewSchedule` (src/utils/scheduler.ts lines 73-113), with the
remaining iteration budget as explicit fuel.  Each iteration simulates a Good
review at the cursor, breaks when the next projected timestamp passes
`rangeEnd`, otherwise emits a `projected` event and evolves the simulated
state. -/
def simLoop (nodeId title : String) (rangeEnd : ℤ) :
    FSRSData → ℤ → ℕ → List CalendarEvent
  | _, _, 0 => []
  | st, cursor, fuel + 1 =>
    let res := computeNextSchedule st .good cursor
    let nextT := cursor + res.interval * dayMs
    if rangeEnd < nextT then []
    else
      ⟨nodeId, title, nextT, .projected, some res.interval⟩ ::
        simLoop nodeId title rangeEnd ⟨.review, res.s, res.d, nextT, cursor⟩ nextT fuel

/-- The events emitted for one node (src/utils/scheduler.ts lines 33-113):
skip root / suspended / parentless nodes; if the node's due date is within the
range, emit one `confirmed` event stored at the due date and then the simulated
`projected` chain starting from the real state at
`effectiveReviewDate = max(due, now)`; otherwise emit nothing. -/
def nodeEvents (now rangeEnd : ℤ) (node : Node) : List CalendarEvent :=
  if skipNode node then []
  else if node.fsrs.due ≤ rangeEnd then
    ⟨node.id, node.title, node.fsrs.due, .confirmed, none⟩ ::
      simLoop node.id node.title rangeEnd node.fsrs (max node.fsrs.due now) 365
  else []

/-- `generateReviewSchedule` (src/utils/scheduler.ts lines 15-121), as the flat
list of emitted events in emission order.  The source buckets these same events
into a dictionary keyed by formatted calendar day and finally sorts within each
day (confirmed first, then by title); that grouping is presentational and
preserves the multiset of events, which is what the verified properties are
about.  `now` is `Date.now()`, made an explicit input. -/
def generateReviewSchedule (nodes : NodeMap) (daysToProject : ℤ) (now : ℤ) :
    List CalendarEvent :=
  (nodes.map Prod.snd).flatMap (nodeEvents now (now + daysToProject * dayMs))

/-! ### Interval helpers -/

lemma calculateInterval_of_ne {s : ℝ} (h : s ≠ 0) :
    calculateInterval s = min 36500 (max 1 (round (s * 9 * (1 / FACTOR - 1)))) := by
  rw [calculateInterval, if_neg h]

lemma one_le_calculateInterval {s : ℝ} (h : s ≠ 0) : 1 ≤ calculateInterval s := by
  rw [calculateInterval_of_ne h]
  exact le_min (by norm_num) (le_max_left _ _)

lemma calculateInterval_le {s : ℝ} : calculateInterval s ≤ 36500 := by
  rw [calculateInterval]
  split
  · norm_num
  · exact min_le_left _ _

/-! ### Simulation-loop helpers -/

lemma simLoop_succ (nodeId title : String) (rangeEnd : ℤ) (st : FSRSData)
    (cursor : ℤ) (fuel : ℕ) :
    simLoop nodeId title rangeEnd st cursor (fuel + 1) =
      if rangeEnd <
          cursor + (computeNextSchedule st Rating.good cursor).interval * dayMs then []
      else
        ⟨nodeId, title,
            cursor + (computeNextSchedule st Rating.good cursor).interval * dayMs,
            .projected, some (computeNextSchedule st Rating.good cursor).interval⟩ ::
          simLoop nodeId title rangeEnd
            ⟨.review, (computeNextSchedule st Rating.good cursor).s,
              (computeNextSchedule st Rating.good cursor).d,
              cursor + (computeNextSchedule st Rating.good cursor).interval * dayMs,
              cursor⟩
            (cursor + (computeNextSchedule st Rating.good cursor).interval * dayMs)
            fuel := rfl

lemma simLoop_length_le (nodeId title : String) (rangeEnd : ℤ) (fuel : ℕ) :
    ∀ (st : FSRSData) (cursor : ℤ),
      (simLoop nodeId title rangeEnd st cursor fuel).length ≤ fuel := by
  induction fuel with
  | zero => intro st cursor; simp [simLoop]
  | succ n ih =>
    intro st cursor
    simp only [simLoop]
    split
    · simp
    · simpa using ih _ _

lemma simLoop_mem {nodeId title : String} {rangeEnd : ℤ} (fuel : ℕ) :
    ∀ (st : FSRSData) (cursor : ℤ) (e : CalendarEvent),
      e ∈ simLoop nodeId title rangeEnd st cursor fuel →
      e.type = ReviewType.projected ∧ e.date ≤ rangeEnd := by
  induction fuel with
  | zero => intro st cursor e he; simp [simLoop] at he
  | succ n ih =>
    intro st cursor e he
    simp only [simLoop] at he
    by_cases h : rangeEnd <
        cursor + (computeNextSchedule st Rating.good cursor).interval * dayMs
    · rw [if_pos h] at he
      simp at he
    · rw [if_neg h] at he
      rcases List.mem_cons.mp he with rfl | h'
      · exact ⟨rfl, not_lt.mp h⟩
      · exact ih _ _ _ h'

/-- C7: for every stability input, `calculateInterval` returns
`clamp(round(s · 9 · (1/0.9 − 1)), 1, 36500)` when `s > 0` and `0` when
`s = 0`; in particular the interval lies in `[1, 36500]` whenever `s > 0`. -/
theorem calculateInterval_spec :
    (∀ s : ℝ, 0 < s →
      calculateInterval s = min 36500 (max 1 (round (s * 9 * (1 / FACTOR - 1)))) ∧
      1 ≤ calculateInterval s ∧ calculateInterval s ≤ 36500) ∧
    calculateInterval 0 = 0 := by
  refine ⟨fun s hs => ⟨calculateInterval_of_ne (ne_of_gt hs),
    one_le_calculateInterval (ne_of_gt hs), calculateInterval_le⟩, ?_⟩
  rw [calculateInterval, if_pos rfl]

/-- Witness for C7 at the concrete stability `s = 2`. -/
theorem calculateInterval_spec_witness :
    (0 : ℝ) < 2 ∧
    (calculateInterval 2 = min 36500 (max 1 (round ((2 : ℝ) * 9 * (1 / FACTOR - 1)))) ∧
      1 ≤ calculateInterval 2 ∧ calculateInterval 2 ≤ 36500) :=
  ⟨by norm_num, calculateInterval_spec.1 2 (by norm_num)⟩

/-- C10: when the target id is absent from the map, `reviewComplete`,
`addRetroactiveLog` and `deleteLog` return the map unchanged, and `addNode`
with an absent parent id inserts nothing while still returning the freshly
generated id. -/
theorem missing_id_ops_are_noops (m : NodeMap) (id : String) (s d : ℝ)
    (interval : ℤ) (rating : Rating) (now date : ℤ) (logId title newId : String)
    (mode : AddMode) (isLateNight : Bool) (h : m.lookup id = none) :
    reviewComplete m id s d interval rating now logId = m ∧
    addRetroactiveLog m id rating date logId = m ∧
    deleteLog m id logId now = m ∧
    (addNode m id title mode newId now isLateNight).1 = m ∧
    (addNode m id title mode newId now isLateNight).2 = newId := by
  refine ⟨?_, ?_, ?_, ?_, ?_⟩ <;>
    simp [reviewComplete, addRetroactiveLog, deleteLog, addNode, h]

/-- Witness for C10 on the empty map and id `"x"`. -/
theorem missing_id_ops_are_noops_witness :
    (([] : NodeMap).lookup "x" = none) ∧
    (reviewComplete [] "x" 1 2 3 Rating.good 0 "l" = [] ∧
      addRetroactiveLog [] "x" Rating.good 0 "l" = [] ∧
      deleteLog [] "x" "l" 0 = [] ∧
      (addNode [] "x" "t" AddMode.plan "n" 0 false).1 = [] ∧
      (addNode [] "x" "t" AddMode.plan "n" 0 false).2 = "n") :=
  ⟨rfl, missing_id_ops_are_noops [] "x" 1 2 3 Rating.good 0 0 "l" "t" "n"
    AddMode.plan false rfl⟩

/-- C1 (code bug): the executed body of `nextDifficulty` applies a
mean-reversion transform toward 1, `(1 − w7)·(D − w6·(rating − 3)) + w7·1`,
before clamping — contradicting both the function's own doc comment
(`D' = D - w6 * (grade - 3)`) and the unreachable code after the early
`return`, which compute the plain linear update.  At `D = 5`,
`rating = Again(1)` the code yields `7.88896432` while the documented plain
update clamped to `[1, 10]` yields `7.9208`. -/
theorem nextDifficulty_mean_reversion_divergence :
    nextDifficulty 5 Rating.again = 7.88896432 ∧
    min 10 (max 1 ((5 : ℝ) - w6 * (((Rating.again.val : ℤ) : ℝ) - 3))) = 7.9208 ∧
    (7.88896432 : ℝ) ≠ 7.9208 := by
  refine ⟨?_, ?_, by norm_num⟩
  · simp only [nextDifficulty, Rating.val, w6, w7]
    rw [show ((1 : ℤ) : ℝ) = 1 by norm_num]
    rw [show (1 - 0.0046) * ((5 : ℝ) - 1.4604 * (1 - 3)) + 0.0046 * 1 =
      7.88896432 by norm_num]
    rw [max_eq_right (by norm_num), min_eq_right (by norm_num)]
  · simp only [Rating.val, w6]
    rw [show ((1 : ℤ) : ℝ) = 1 by norm_num]
    rw [show (5 : ℝ) - 1.4604 * (1 - 3) = 7.9208 by norm_num]
    rw [max_eq_right (by norm_num), min_eq_right (by norm_num)]

/-- C6: no event emitted by the projection has a timestamp beyond the horizon
end `now + daysToProject` days, and the per-item simulation loop emits at most
365 events (the loop is structurally bounded by its 365-step fuel, so the
projection always terminates). -/
theorem projection_within_horizon (nodes : NodeMap) (daysToProject now : ℤ) :
    (∀ e ∈ generateReviewSchedule nodes daysToProject now,
      e.date ≤ now + daysToProject * dayMs) ∧
    ∀ (nodeId title : String) (rangeEnd : ℤ) (st : FSRSData) (cursor : ℤ),
      (simLoop nodeId title rangeEnd st cursor 365).length ≤ 365 := by
  constructor
  · intro e he
    rw [generateReviewSchedule] at he
    obtain ⟨n, _, he⟩ := List.mem_flatMap.mp he
    by_cases hskip : skipNode n = true
    · rw [nodeEvents, if_pos hskip] at he
      simp at he
    · rw [nodeEvents, if_neg hskip] at he
      by_cases hdue : n.fsrs.due ≤ now + daysToProject * dayMs
      · rw [if_pos hdue] at he
        rcases List.mem_cons.mp he with rfl | h'
        · exact hdue
        · exact (simLoop_mem 365 _ _ _ h').2
      · rw [if_neg hdue] at he
        simp at he
  · intro nodeId title rangeEnd st cursor
    exact simLoop_length_le nodeId title rangeEnd 365 st cursor

/-- Witness for C6: a concrete schedule containing a concrete event, whose
timestamp the theorem bounds by the horizon end. -/
theorem projection_within_horizon_witness :
    (⟨"n1", "t", 5, ReviewType.confirmed, none⟩ : CalendarEvent) ∈
      generateReviewSchedule
        [("n1", ⟨"n1", some "root", "t", [], false, ⟨.review, 1, 5, 5, 0⟩, []⟩)] 7 0 ∧
    (5 : ℤ) ≤ 0 + 7 * dayMs := by
  have hmem : (⟨"n1", "t", 5, ReviewType.confirmed, none⟩ : CalendarEvent) ∈
      generateReviewSchedule
        [("n1", ⟨"n1", some "root", "t", [], false, ⟨.review, 1, 5, 5, 0⟩, []⟩)] 7 0 := by
    rw [generateReviewSchedule]
    simp only [List.map_cons, List.map_nil, List.flatMap_cons, List.flatMap_nil,
      List.append_nil]
    rw [nodeEvents, if_neg (by decide), if_pos (by decide)]
    exact List.mem_cons_self _ _
  exact ⟨hmem, (projection_within_horizon _ 7 0).1 _ hmem⟩

/-! ### Replay helpers -/

lemma foldl_replay_lastReview_mem (l : List FSRSReviewLog) (st : FSRSData)
    (h : l ≠ []) :
    ∃ x ∈ l, (l.foldl replayStep st).lastReview = x.reviewDate := by
  induction l using List.reverseRecOn with
  | nil => exact absurd rfl h
  | append_singleton l e _ =>
    refine ⟨e, List.mem_append_right _ (List.mem_singleton_self e), ?_⟩
    rw [List.foldl_append]
    rfl

lemma mem_reviewDate_le_foldl_lastReview :
    ∀ (l : List FSRSReviewLog), l.Sorted logLe → ∀ (st : FSRSData), ∀ x ∈ l,
      x.reviewDate ≤ (l.foldl replayStep st).lastReview := by
  intro l
  induction l with
  | nil => intro _ st x hx; simp at hx
  | cons a l ih =>
    intro hsort st x hx
    have hpair := List.pairwise_cons.mp hsort
    rcases List.mem_cons.mp hx with rfl | hx'
    · rcases List.eq_nil_or_concat l with rfl | ⟨_, _, hne⟩
      · exact le_of_eq rfl
      · have hl : l ≠ [] := by rw [hne]; simp
        obtain ⟨y, hy, heq⟩ := foldl_replay_lastReview_mem l (replayStep st x) hl
        rw [List.foldl_cons, heq]
        exact hpair.1 y hy
    · exact ih hpair.2 (replayStep st a) x hx'

lemma orderedInsert_concat (x e : FSRSReviewLog) (l : List FSRSReviewLog)
    (hx : logLe x e) :
    List.orderedInsert logLe x (l ++ [e]) = List.orderedInsert logLe x l ++ [e] := by
  induction l with
  | nil => simp [List.orderedInsert, if_pos hx]
  | cons b l ih =>
    simp only [List.cons_append, List.orderedInsert, List.append_eq]
    by_cases h : logLe x b
    · rw [if_pos h, if_pos h]
      rfl
    · rw [if_neg h, if_neg h, ih]
      rfl

lemma insertionSort_concat (l : List FSRSReviewLog) (e : FSRSReviewLog)
    (hall : ∀ x ∈ l, logLe x e) :
    List.insertionSort logLe (l ++ [e]) = List.insertionSort logLe l ++ [e] := by
  induction l with
  | nil => rfl
  | cons a l ih =>
    simp only [List.cons_append, List.insertionSort, List.append_eq]
    rw [ih fun x hx => hall x (List.mem_cons_of_mem a hx),
      orderedInsert_concat a e _ (hall a (List.mem_cons_self a l))]

/-- C2 (spec-modelled replay): appending one entry whose timestamp is at least
the replayed state's `lastReview` and replaying the whole ledger — the
`addRetroactiveLog` path through `recalculateFSRS` — produces exactly the
`FSRSData` that the fast path writes, i.e. one `computeNextSchedule` step
applied to the replayed prior state and stored the way `reviewComplete` stores
it (`applyReviewNow`). -/
theorem replay_append_eq_fast_path (L : List FSRSReviewLog) (fallbackDue : ℤ)
    (e : FSRSReviewLog)
    (h : (recalculateFSRS L fallbackDue).lastReview ≤ e.reviewDate) :
    recalculateFSRS (L ++ [e]) fallbackDue =
      applyReviewNow (recalculateFSRS L fallbackDue) e.rating e.reviewDate := by
  have hall : ∀ x ∈ L, logLe x e := by
    intro x hx
    have hx' : x ∈ List.insertionSort logLe L := (List.mem_insertionSort logLe).mpr hx
    have hle := mem_reviewDate_le_foldl_lastReview (List.insertionSort logLe L)
      (List.sorted_insertionSort logLe L) (replayZero fallbackDue) x hx'
    exact le_trans hle h
  rw [recalculateFSRS, recalculateFSRS, insertionSort_concat L e hall,
    List.foldl_append]
  rfl

/-- Witness for C2: appending a single Good review at time 5 to the empty
ledger. -/
theorem replay_append_eq_fast_path_witness :
    (recalculateFSRS [] 0).lastReview ≤ 5 ∧
    recalculateFSRS ([] ++ [⟨"l1", Rating.good, 5, none⟩]) 0 =
      applyReviewNow (recalculateFSRS [] 0) Rating.good 5 :=
  ⟨by decide, replay_append_eq_fast_path [] 0 ⟨"l1", Rating.good, 5, none⟩ (by decide)⟩

/-! ### Stability of the due-queue sort -/

lemma orderedInsert_filter_due (x : Node) (s : List Node) (t : ℤ) :
    (List.orderedInsert nodeLe x s).filter (fun n => decide (n.fsrs.due = t)) =
      if x.fsrs.due = t then x :: s.filter (fun n => decide (n.fsrs.due = t))
      else s.filter (fun n => decide (n.fsrs.due = t)) := by
  induction s with
  | nil =>
    by_cases hx : x.fsrs.due = t
    · rw [if_pos hx]
      simp [List.orderedInsert, hx]
    · rw [if_neg hx]
      simp [List.orderedInsert, hx]
  | cons y s ih =>
    simp only [List.orderedInsert]
    by_cases hxy : nodeLe x y
    · rw [if_pos hxy]
      by_cases hx : x.fsrs.due = t <;> by_cases hy : y.fsrs.due = t <;>
        simp [List.filter_cons, hx, hy]
    · rw [if_neg hxy]
      have hlt : y.fsrs.due < x.fsrs.due := not_le.mp hxy
      by_cases hx : x.fsrs.due = t
      · have hy : ¬y.fsrs.due = t := by rw [← hx]; exact ne_of_lt hlt
        rw [if_pos hx]
        simp [List.filter_cons, hy, ih, hx]
      · rw [if_neg hx]
        by_cases hy : y.fsrs.due = t <;> simp [List.filter_cons, hy, ih, hx]

lemma insertionSort_filter_due (l : List Node) (t : ℤ) :
    (List.insertionSort nodeLe l).filter (fun n => decide (n.fsrs.due = t)) =
      l.filter (fun n => decide (n.fsrs.due = t)) := by
  induction l with
  | nil => rfl
  | cons x l ih =>
    simp only [List.insertionSort]
    rw [orderedInsert_filter_due, List.filter_cons]
    by_cases hx : x.fsrs.due = t
    · rw [if_pos hx, ih]
      simp [hx]
    · rw [if_neg hx, ih]
      simp [hx]

/-- C8: the review queue is a permutation of exactly the non-root
(`parentId ≠ null`), non-suspended items with `due ≤ now` taken in input
order, it is sorted ascending by due timestamp, and items with equal due
timestamps keep their stable input order (the sublist at any fixed due value
equals the corresponding sublist of the filtered input).  In particular the
queue never contains a suspended item or the root. -/
theorem reviewQueue_spec (nodes : NodeMap) (now : ℤ) :
    (reviewQueue nodes now).Perm
      ((nodes.map Prod.snd).filter fun n => decide (duePred now n)) ∧
    List.Sorted nodeLe (reviewQueue nodes now) ∧
    ∀ t : ℤ, (reviewQueue nodes now).filter (fun n => decide (n.fsrs.due = t)) =
      ((nodes.map Prod.snd).filter fun n => decide (duePred now n)).filter
        fun n => decide (n.fsrs.due = t) :=
  ⟨List.perm_insertionSort nodeLe _, List.sorted_insertionSort nodeLe _,
    fun t => insertionSort_filter_due _ t⟩

/-! ### Confirmed-event placement -/

lemma simLoop_filter_confirmed (nodeId title : String) (rangeEnd : ℤ)
    (st : FSRSData) (cursor : ℤ) (fuel : ℕ) :
    (simLoop nodeId title rangeEnd st cursor fuel).filter
      (fun e => decide (e.type = ReviewType.confirmed)) = [] := by
  rw [List.filter_eq_nil_iff]
  intro e he
  have h := (simLoop_mem fuel _ _ _ he).1
  simp [h]

/-- C3 (amended): for a non-skipped item, the projection emits exactly one
`confirmed` event and its timestamp is `item.due` — the event is stored at the
due date even when the item is overdue, so it can lie in the past; it is
emitted precisely when `item.due ≤ horizonEnd`, and when `item.due` exceeds
`horizonEnd` no events at all are emitted for the item. -/
theorem confirmed_event_at_due (now rangeEnd : ℤ) (node : Node)
    (hskip : skipNode node = false) :
    (node.fsrs.due ≤ rangeEnd →
      (nodeEvents now rangeEnd node).filter
          (fun e => decide (e.type = ReviewType.confirmed)) =
        [⟨node.id, node.title, node.fsrs.due, ReviewType.confirmed, none⟩]) ∧
    (rangeEnd < node.fsrs.due → nodeEvents now rangeEnd node = []) := by
  constructor
  · intro hdue
    rw [nodeEvents, if_neg (by simp [hskip]), if_pos hdue, List.filter_cons]
    rw [simLoop_filter_confirmed]
    simp
  · intro hlt
    rw [nodeEvents, if_neg (by simp [hskip]), if_neg (not_le.mpr hlt)]

/-- Witness for C3 (amended) on a concrete item due inside the horizon. -/
theorem confirmed_event_at_due_witness :
    skipNode ⟨"n2", some "root", "t", [], false, ⟨.review, 1, 5, 5, 0⟩, []⟩ = false ∧
    (5 : ℤ) ≤ 10 ∧
    (nodeEvents 0 10 ⟨"n2", some "root", "t", [], false, ⟨.review, 1, 5, 5, 0⟩, []⟩).filter
        (fun e => decide (e.type = ReviewType.confirmed)) =
      [⟨"n2", "t", 5, ReviewType.confirmed, none⟩] := by
  refine ⟨by decide, by decide, ?_⟩
  exact (confirmed_event_at_due 0 10
    ⟨"n2", some "root", "t", [], false, ⟨.review, 1, 5, 5, 0⟩, []⟩ (by decide)).1
    (by decide)

/-- C3 counterexample: for an overdue item (due at time 0, now = day 10,
horizon end = day 17) the emitted confirmed event carries timestamp 0 — the
item's past due date — and not `max(due, now) = day 10` as the claim states. -/
theorem confirmed_event_not_pulled_forward :
    (nodeEvents (10 * dayMs) (17 * dayMs)
        ⟨"n1", some "root", "t", [], false, ⟨.review, 1, 5, 0, 0⟩, []⟩).filter
        (fun e => decide (e.type = ReviewType.confirmed)) =
      [⟨"n1", "t", 0, ReviewType.confirmed, none⟩] ∧
    (0 : ℤ) ≠ max 0 (10 * dayMs) := by
  constructor
  · rw [nodeEvents, if_neg (by decide), if_pos (by decide), List.filter_cons]
    rw [simLoop_filter_confirmed]
    simp
  · decide

/-! ### Elementary real bounds -/

lemma exp_w8_lt_eight : Real.exp w8 < 8 := by
  have h2 : Real.exp w8 ≤ Real.exp 2 := Real.exp_le_exp.mpr (by norm_num [w8])
  have he2 : Real.exp 2 = Real.exp 1 * Real.exp 1 := by
    rw [← Real.exp_add]
    norm_num
  have he1 := Real.exp_one_lt_d9
  have hpos := Real.exp_pos 1
  nlinarith

lemma exp_sub_one_nonneg {x : ℝ} (h : 0 ≤ x) : 0 ≤ Real.exp x - 1 := by
  have := Real.add_one_le_exp x
  linarith

lemma exp_sub_one_le_three_mul {x : ℝ} (h0 : 0 ≤ x) (h1 : x ≤ 1) :
    Real.exp x - 1 ≤ 3 * x := by
  have hneg : 1 - x ≤ Real.exp (-x) := by
    have := Real.add_one_le_exp (-x)
    linarith
  have hmul : Real.exp x * (1 - x) ≤ 1 := by
    have h2 := mul_le_mul_of_nonneg_left hneg (Real.exp_pos x).le
    rwa [← Real.exp_add, add_neg_cancel, Real.exp_zero] at h2
  have hex : Real.exp x ≤ 3 := by
    have h3 := Real.exp_le_exp.mpr h1
    have h4 := Real.exp_one_lt_d9
    linarith
  nlinarith [Real.exp_pos x]

/-! ### Retrievability and stability-growth lemmas -/

lemma currentRetrievability_le_one {s e : ℝ} (hs : 0 < s) (he : 0 ≤ e) :
    currentRetrievability s e ≤ 1 := by
  rw [currentRetrievability, if_neg (ne_of_gt hs)]
  apply Real.rpow_le_one_of_one_le_of_nonpos
  · have h1 : 0 ≤ FACTOR * e / s := div_nonneg (mul_nonneg (by norm_num [FACTOR]) he) hs.le
    linarith
  · norm_num [DECAY]

lemma le_nextStability_good {s d r : ℝ} (hs : 0 < s) (hd : d ≤ 10) (hr : r ≤ 1) :
    s ≤ nextStability s d r Rating.good := by
  rw [show nextStability s d r Rating.good =
    s * (1 + Real.exp w8 * (11 - d) * s ^ (-w9) *
      (Real.exp (w10 * (1 - r)) - 1) * 1 * 1) from rfl]
  have h1 : 0 ≤ Real.exp (w10 * (1 - r)) - 1 :=
    exp_sub_one_nonneg (mul_nonneg (by norm_num [w10]) (by linarith))
  have h2 : (0 : ℝ) ≤ 11 - d := by linarith
  have h3 : 0 ≤ s ^ (-w9) := (Real.rpow_pos_of_pos hs _).le
  have hE : 0 ≤ Real.exp w8 * (11 - d) * s ^ (-w9) *
      (Real.exp (w10 * (1 - r)) - 1) * 1 * 1 :=
    mul_nonneg (mul_nonneg (mul_nonneg (mul_nonneg
      (mul_nonneg (Real.exp_pos w8).le h2) h3) h1) zero_le_one) zero_le_one
  nlinarith [mul_nonneg hs.le hE]

/-- C5 (amended): for `currentS > 0`, `currentD ≤ 10`, a success rating in
{Good, Easy} and retrievability `R < 1`, the unrounded new stability computed
by `nextStability` is strictly greater than `currentS`.  (The value
`computeNextSchedule` returns is this quantity rounded to four decimal places,
which can collapse a sufficiently small growth back to `currentS`.) -/
theorem nextStability_strict_growth (s d r : ℝ) (rating : Rating) (hs : 0 < s)
    (hd : d ≤ 10) (hr : r < 1)
    (hrate : rating = Rating.good ∨ rating = Rating.easy) :
    s < nextStability s d r rating := by
  have hx : 0 < w10 * (1 - r) := mul_pos (by norm_num [w10]) (by linarith)
  have hexp : 0 < Real.exp (w10 * (1 - r)) - 1 := by
    have := Real.add_one_lt_exp (ne_of_gt hx)
    linarith
  have hd11 : (0 : ℝ) < 11 - d := by linarith
  have hrp : 0 < s ^ (-w9) := Real.rpow_pos_of_pos hs _
  have hE : ∀ bonus : ℝ, 0 < bonus →
      0 < Real.exp w8 * (11 - d) * s ^ (-w9) *
        (Real.exp (w10 * (1 - r)) - 1) * 1 * bonus := fun bonus hb =>
    mul_pos (mul_pos (mul_pos (mul_pos
      (mul_pos (Real.exp_pos w8) hd11) hrp) hexp) one_pos) hb
  rcases hrate with h | h <;> subst h
  · rw [show nextStability s d r Rating.good =
      s * (1 + Real.exp w8 * (11 - d) * s ^ (-w9) *
        (Real.exp (w10 * (1 - r)) - 1) * 1 * 1) from rfl]
    nlinarith [mul_pos hs (hE 1 one_pos)]
  · rw [show nextStability s d r Rating.easy =
      s * (1 + Real.exp w8 * (11 - d) * s ^ (-w9) *
        (Real.exp (w10 * (1 - r)) - 1) * 1 * w16) from rfl]
    nlinarith [mul_pos hs (hE w16 (by norm_num [w16]))]

/-- Witness for C5 (amended) at `s = 1`, `d = 1`, `r = 1/2`, rating Good. -/
theorem nextStability_strict_growth_witness :
    (0 : ℝ) < 1 ∧ (1 : ℝ) ≤ 10 ∧ (1 / 2 : ℝ) < 1 ∧
    (Rating.good = Rating.good ∨ Rating.good = Rating.easy) ∧
    (1 : ℝ) < nextStability 1 1 (1 / 2) Rating.good :=
  ⟨by norm_num, by norm_num, by norm_num, Or.inl rfl,
    nextStability_strict_growth 1 1 (1 / 2) Rating.good (by norm_num) (by norm_num)
      (by norm_num) (Or.inl rfl)⟩

/-! ### The rounding counterexample to unamended C5 -/

lemma computeNextSchedule_s_of_ne (current : FSRSData) (rating : Rating)
    (now : ℤ) (h : current.s ≠ 0) :
    (computeNextSchedule current rating now).s =
      roundTo4 (nextStability current.s current.d
        (currentRetrievability current.s
          (max 0 (((now - current.lastReview : ℤ) : ℝ) / (1000 * 60 * 60 * 24))))
        rating) := by
  simp only [computeNextSchedule]
  rw [if_neg h]

/-- C5 counterexample: reviewing an item with `S = 1`, `D = 10` one
millisecond after its last review (so its retrievability is strictly below 1)
with rating Good returns stability exactly 1 — the four-decimal rounding of
`computeNextSchedule` erases the strictly positive growth, so the returned new
stability is not strictly greater than `currentS`. -/
theorem stability_growth_lost_to_rounding :
    (computeNextSchedule ⟨.review, 1, 10, 0, 0⟩ Rating.good 1).s = 1 ∧
    currentRetrievability 1 (1 / (1000 * 60 * 60 * 24)) < 1 := by
  have hbase : (1 : ℝ) + FACTOR * (1 / (1000 * 60 * 60 * 24)) / 1 =
      96000001 / 96000000 := by
    norm_num [FACTOR]
  have hr_eq : currentRetrievability 1 (1 / (1000 * 60 * 60 * 24)) =
      (96000001 / 96000000 : ℝ) ^ DECAY := by
    rw [currentRetrievability, if_neg one_ne_zero, hbase]
  have hrlt : (96000001 / 96000000 : ℝ) ^ DECAY < 1 :=
    Real.rpow_lt_one_of_one_lt_of_neg (by norm_num) (by norm_num [DECAY])
  have hrge : 1 - 1 / 192000000 ≤ (96000001 / 96000000 : ℝ) ^ DECAY := by
    have hsb : Real.sqrt (96000001 / 96000000) ≤ ((1 : ℝ) - 1 / 192000000)⁻¹ := by
      rw [show (((1 : ℝ) - 1 / 192000000)⁻¹) =
          Real.sqrt ((((1 : ℝ) - 1 / 192000000)⁻¹) ^ 2) from
        (Real.sqrt_sq (by norm_num)).symm]
      exact Real.sqrt_le_sqrt (by norm_num)
    have hmul : ((1 : ℝ) - 1 / 192000000) * Real.sqrt (96000001 / 96000000) ≤ 1 := by
      have h2 := mul_le_mul_of_nonneg_left hsb
        (by norm_num : (0 : ℝ) ≤ 1 - 1 / 192000000)
      rwa [mul_inv_cancel₀ (by norm_num : ((1 : ℝ) - 1 / 192000000) ≠ 0)] at h2
    have hpos : 0 < Real.sqrt (96000001 / 96000000) :=
      Real.sqrt_pos.mpr (by norm_num)
    rw [DECAY, show (-0.5 : ℝ) = -(1 / 2) by norm_num,
      Real.rpow_neg (by norm_num : (0 : ℝ) ≤ 96000001 / 96000000),
      ← Real.sqrt_eq_rpow, inv_eq_one_div]
    exact (le_div_iff₀ hpos).mpr hmul
  have hx0 : 0 ≤ w10 * (1 - (96000001 / 96000000 : ℝ) ^ DECAY) :=
    mul_nonneg (by norm_num [w10]) (by linarith)
  have hxsmall : w10 * (1 - (96000001 / 96000000 : ℝ) ^ DECAY) ≤
      1.01925 / 192000000 := by
    have h1 : 1 - (96000001 / 96000000 : ℝ) ^ DECAY ≤ 1 / 192000000 := by linarith
    calc w10 * (1 - (96000001 / 96000000 : ℝ) ^ DECAY) ≤ w10 * (1 / 192000000) :=
        mul_le_mul_of_nonneg_left h1 (by norm_num [w10])
      _ = 1.01925 / 192000000 := by norm_num [w10]
  have hx1 : w10 * (1 - (96000001 / 96000000 : ℝ) ^ DECAY) ≤ 1 :=
    le_trans hxsmall (by norm_num)
  have hE0 : 0 ≤ Real.exp w8 *
      (Real.exp (w10 * (1 - (96000001 / 96000000 : ℝ) ^ DECAY)) - 1) :=
    mul_nonneg (Real.exp_pos w8).le (exp_sub_one_nonneg hx0)
  have hElt : Real.exp w8 *
      (Real.exp (w10 * (1 - (96000001 / 96000000 : ℝ) ^ DECAY)) - 1) < 0.00005 := by
    have h3x := exp_sub_one_le_three_mul hx0 hx1
    have h8 := exp_w8_lt_eight
    have hprod : Real.exp w8 *
        (Real.exp (w10 * (1 - (96000001 / 96000000 : ℝ) ^ DECAY)) - 1) ≤
        8 * (3 * (w10 * (1 - (96000001 / 96000000 : ℝ) ^ DECAY))) :=
      mul_le_mul h8.le h3x (exp_sub_one_nonneg hx0) (by norm_num)
    linarith
  have hns_val : nextStability 1 10 ((96000001 / 96000000 : ℝ) ^ DECAY) Rating.good =
      1 + Real.exp w8 *
        (Real.exp (w10 * (1 - (96000001 / 96000000 : ℝ) ^ DECAY)) - 1) := by
    rw [show nextStability 1 10 ((96000001 / 96000000 : ℝ) ^ DECAY) Rating.good =
        1 * (1 + Real.exp w8 * (11 - 10) * (1 : ℝ) ^ (-w9) *
          (Real.exp (w10 * (1 - (96000001 / 96000000 : ℝ) ^ DECAY)) - 1) * 1 * 1)
      from rfl]
    rw [Real.one_rpow]
    ring
  have hround : roundTo4 (1 + Real.exp w8 *
      (Real.exp (w10 * (1 - (96000001 / 96000000 : ℝ) ^ DECAY)) - 1)) = 1 := by
    rw [roundTo4, round_eq]
    have hfl : ⌊(1 + Real.exp w8 *
        (Real.exp (w10 * (1 - (96000001 / 96000000 : ℝ) ^ DECAY)) - 1)) * 10000 +
          1 / 2⌋ = (10000 : ℤ) := by
      rw [Int.floor_eq_iff]
      constructor
      · push_cast
        nlinarith
      · push_cast
        nlinarith
    rw [hfl]
    norm_num
  constructor
  · have hne : ((⟨.review, 1, 10, 0, 0⟩ : FSRSData)).s ≠ 0 := by
      show (1 : ℝ) ≠ 0
      norm_num
    rw [computeNextSchedule_s_of_ne _ _ _ hne]
    show roundTo4 (nextStability 1 10
      (currentRetrievability 1
        (max 0 (((1 - 0 : ℤ) : ℝ) / (1000 * 60 * 60 * 24)))) Rating.good) = 1
    rw [show max (0 : ℝ) (((1 - 0 : ℤ) : ℝ) / (1000 * 60 * 60 * 24)) =
        1 / (1000 * 60 * 60 * 24) from by rw [max_eq_right] <;> norm_num]
    rw [hr_eq, hns_val, hround]
  · rw [hr_eq]
    exact hrlt

/-! ### Zero or past projection horizons -/

lemma computeNextSchedule_good_interval_pos (st : FSRSData) (now : ℤ)
    (hs : 0 ≤ st.s) (hd : st.s ≠ 0 → st.d ≤ 10) :
    1 ≤ (computeNextSchedule st Rating.good now).interval := by
  by_cases h : st.s = 0
  · have hi : (computeNextSchedule st Rating.good now).interval =
        calculateInterval (initialStability Rating.good) := by
      simp only [computeNextSchedule]
      rw [if_pos h]
    rw [hi]
    exact one_le_calculateInterval (by norm_num [initialStability, w2])
  · have hs' : 0 < st.s := lt_of_le_of_ne hs (Ne.symm h)
    have hi : (computeNextSchedule st Rating.good now).interval =
        calculateInterval (nextStability st.s st.d
          (currentRetrievability st.s
            (max 0 (((now - st.lastReview : ℤ) : ℝ) / (1000 * 60 * 60 * 24))))
          Rating.good) := by
      simp only [computeNextSchedule]
      rw [if_neg h]
    rw [hi]
    apply one_le_calculateInterval
    have hr1 : currentRetrievability st.s
        (max 0 (((now - st.lastReview : ℤ) : ℝ) / (1000 * 60 * 60 * 24))) ≤ 1 :=
      currentRetrievability_le_one hs' (le_max_left 0 _)
    have hgrow := le_nextStability_good hs' (hd h) hr1
    exact ne_of_gt (lt_of_lt_of_le hs' hgrow)

/-- C9 (amended): with a zero-length or past horizon the projection emits no
`projected` events — every emitted event is `confirmed`.  (It is not empty in
general: overdue items whose due date lies inside the degenerate horizon still
get their confirmed event.)  The well-formedness hypotheses `S ≥ 0` and
`S ≠ 0 → D ≤ 10` are the data-model invariants of the stored states. -/
theorem zero_horizon_only_confirmed (nodes : NodeMap) (daysToProject now : ℤ)
    (hd : daysToProject ≤ 0)
    (hwf : ∀ p ∈ nodes, 0 ≤ (Prod.snd p).fsrs.s ∧
      ((Prod.snd p).fsrs.s ≠ 0 → (Prod.snd p).fsrs.d ≤ 10)) :
    ∀ e ∈ generateReviewSchedule nodes daysToProject now,
      e.type = ReviewType.confirmed := by
  intro e he
  rw [generateReviewSchedule] at he
  obtain ⟨n, hn, he⟩ := List.mem_flatMap.mp he
  obtain ⟨p, hp, rfl⟩ := List.mem_map.mp hn
  have hwfp := hwf p hp
  by_cases hskip : skipNode p.2 = true
  · rw [nodeEvents, if_pos hskip] at he
    simp at he
  · rw [nodeEvents, if_neg hskip] at he
    by_cases hdue : p.2.fsrs.due ≤ now + daysToProject * dayMs
    · rw [if_pos hdue] at he
      rcases List.mem_cons.mp he with rfl | h'
      · rfl
      · exfalso
        have hdms : (1 : ℤ) ≤ dayMs := by norm_num [dayMs]
        have hre : now + daysToProject * dayMs ≤ now := by
          have h0 := mul_le_mul_of_nonneg_right hd (by linarith : (0 : ℤ) ≤ dayMs)
          rw [zero_mul] at h0
          linarith
        have hi : 1 ≤ (computeNextSchedule p.2.fsrs Rating.good
            (max p.2.fsrs.due now)).interval :=
          computeNextSchedule_good_interval_pos _ _ hwfp.1 hwfp.2
        have hstep : dayMs ≤ (computeNextSchedule p.2.fsrs Rating.good
            (max p.2.fsrs.due now)).interval * dayMs :=
          le_mul_of_one_le_left (by linarith) hi
        have hbreak : now + daysToProject * dayMs <
            max p.2.fsrs.due now + (computeNextSchedule p.2.fsrs Rating.good
              (max p.2.fsrs.due now)).interval * dayMs := by
          have hcur : now ≤ max p.2.fsrs.due now := le_max_right _ _
          linarith
        rw [show (365 : ℕ) = 364 + 1 from rfl, simLoop_succ] at h'
        rw [if_pos hbreak] at h'
        simp at h'
    · rw [if_neg hdue] at he
      simp at he

/-- Witness for C9 (amended): a single well-formed overdue item, zero horizon. -/
theorem zero_horizon_only_confirmed_witness :
    ((0 : ℤ) ≤ 0) ∧
    (∀ p ∈ ([("n1", ⟨"n1", some "root", "t", [], false, ⟨.new, 0, 0, 0, 0⟩, []⟩)] :
        NodeMap), 0 ≤ (Prod.snd p).fsrs.s ∧
        ((Prod.snd p).fsrs.s ≠ 0 → (Prod.snd p).fsrs.d ≤ 10)) ∧
    ∀ e ∈ generateReviewSchedule
        [("n1", ⟨"n1", some "root", "t", [], false, ⟨.new, 0, 0, 0, 0⟩, []⟩)] 0 86400000,
      e.type = ReviewType.confirmed := by
  have hwf : ∀ p ∈ ([("n1", ⟨"n1", some "root", "t", [], false,
      ⟨.new, 0, 0, 0, 0⟩, []⟩)] : NodeMap), 0 ≤ (Prod.snd p).fsrs.s ∧
      ((Prod.snd p).fsrs.s ≠ 0 → (Prod.snd p).fsrs.d ≤ 10) := by
    intro p hp
    rcases List.mem_singleton.mp hp with rfl
    exact ⟨le_refl 0, fun h => absurd rfl h⟩
  exact ⟨le_refl 0, hwf, zero_horizon_only_confirmed _ 0 86400000 (le_refl 0) hwf⟩

/-- C9 counterexample: with a zero horizon (`daysToProject = 0`, horizon end =
now) and one overdue non-root item (due at 0, now = day 1), the projection is
not the empty event collection — the item's confirmed event is still
emitted. -/
theorem zero_horizon_schedule_nonempty :
    generateReviewSchedule
      [("n1", ⟨"n1", some "root", "t", [], false, ⟨.review, 1, 5, 0, 0⟩, []⟩)]
      0 86400000 ≠ [] := by
  rw [generateReviewSchedule]
  simp only [List.map_cons, List.map_nil, List.flatMap_cons, List.flatMap_nil,
    List.append_nil]
  rw [nodeEvents, if_neg (by decide), if_pos (by decide)]
  exact List.cons_ne_nil _ _

end

end MemoryFlow
